import Mathlib

/-
Verification development for the property-cashflow backend's OCR field
extraction and cash-flow aggregation logic (backend/routers/ocr_router.py and
backend/routers/property_router.py).  Python strings are modelled as Lean
strings operated on at the character-list level; Python floats are modelled as
rationals, which is exact for every parsing, absolute-value, comparison and
summation step the routines perform.  Python dicts of extracted fields are
modelled as insertion-ordered association lists, matching dict iteration
order.  The regex patterns used by the source contain no constructs needing
backtracking on these alphabets (every quantified character class is disjoint
from the characters that may legally follow it), so the greedy scanners below
implement exactly the Python re semantics for them.
-/

set_option maxRecDepth 100000

/-- Whitespace characters recognised by Python str.strip and regex backslash-s
for the ASCII inputs handled here. -/
def isPySpace (c : Char) : Bool :=
  c == ' ' || c == '\t' || c == '\n' || c == '\r' || c == '\x0b' || c == '\x0c'

/-- ASCII lowercasing of one character, as Python str.lower does on ASCII. -/
def lcChar (c : Char) : Char :=
  if 'A' ≤ c ∧ c ≤ 'Z' then Char.ofNat (c.toNat + 32) else c

/-- Strip leading and trailing whitespace, as Python str.strip. -/
def trimChars (l : List Char) : List Char :=
  ((l.dropWhile isPySpace).reverse.dropWhile isPySpace).reverse

/-- Is the first list a prefix of the second (character equality)? -/
def prefAux : List Char → List Char → Bool
  | [], _ => true
  | _ :: _, [] => false
  | p :: ps, c :: cs => p == c && prefAux ps cs

/-- Does the pattern occur as a contiguous substring of the list? -/
def subAux (p : List Char) : List Char → Bool
  | [] => p.isEmpty
  | c :: cs => prefAux p (c :: cs) || subAux p cs

/-- Python substring containment: pat in s. -/
def hasSub (s pat : String) : Bool :=
  subAux pat.data s.data

/-- Python str(key).lower().strip() applied to a field key before matching. -/
def keyLower (k : String) : String :=
  ⟨trimChars (k.data.map lcChar)⟩

/-- Python str(value).strip() applied to a field value before parsing. -/
def valTrim (v : String) : String :=
  ⟨trimChars v.data⟩

/-- Numeric value of a list of ASCII digit characters. -/
def digitsToNat (ds : List Char) : Nat :=
  ds.foldl (fun n c => 10 * n + (c.toNat - 48)) 0

/-- Value of a digit run read as the fractional part after a decimal point. -/
def fracVal (fs : List Char) : ℚ :=
  (digitsToNat fs : ℚ) / ((10 : ℚ) ^ fs.length)

/-- Leftmost match of the regex group digits-dot-digits inside a character
list: find the first digit, take the maximal digit run, optionally a dot and
a further digit run, and read the result as a rational. -/
def findNum : List Char → Option ℚ
  | [] => none
  | c :: cs =>
    if c.isDigit then
      let ds := (c :: cs).takeWhile Char.isDigit
      let rest := (c :: cs).dropWhile Char.isDigit
      let fs := match rest with
        | '.' :: r => r.takeWhile Char.isDigit
        | _ => []
      some ((digitsToNat ds : ℚ) + fracVal fs)
    else findNum cs

/-- extract_numeric_value from ocr_router.py: drop dollar signs, commas and
spaces, strip, handle one leading minus, then read the first digit run with an
optional fractional part; no parse yields none. -/
def extract_numeric_value (s : String) : Option ℚ :=
  if s.data.isEmpty then none
  else
    let cleaned :=
      trimChars (((s.data.filter (fun c => !(c == '$'))).filter
        (fun c => !(c == ','))).filter (fun c => !(c == ' ')))
    match cleaned with
    | '-' :: rest => (findNum rest).map (fun q => -q)
    | l => findNum l

/-- A raw OCR value as Python sees it: either a string or a value of some
other runtime type, which the isinstance check of extract_numeric_value
rejects. -/
inductive OcrValue where
  | strv (s : String)
  | nonStr

/-- extract_numeric_value including its leading falsy-or-non-string guard. -/
def extract_numeric_value_total : OcrValue → Option ℚ
  | OcrValue.strv s => extract_numeric_value s
  | OcrValue.nonStr => none

/-- Extracted fields of one document: an insertion-ordered association list
modelling the Python dict of label to raw value. -/
abbrev FieldList := List (String × String)

/-- The income vocabulary of aggregate_property_totals_from_all_documents. -/
def income_keywords : List String :=
  ["rental income", "total income", "income", "revenue", "rental revenue",
   "monthly income", "rental", "rent", "gross income"]

/-- The individual-expense vocabulary of
aggregate_property_totals_from_all_documents. -/
def individual_expense_keywords : List String :=
  ["maintenance", "insurance", "property tax", "utilities", "management",
   "roof repair", "plumbing repair", "hvac service", "repair", "service",
   "tax", "property management", "cleaning", "lawn", "snow", "trash",
   "water", "electric", "gas", "sewer", "advertising", "legal", "accounting"]

/-- The guard skipping keys that contain "total" together with "expenses" or
"expense" (the continue at the top of the aggregation loop). -/
def isTotalExpenseKey (k : String) : Bool :=
  hasSub k "total" && (hasSub k "expenses" || hasSub k "expense")

/-- Does the lowered key contain any income keyword? -/
def incomeKeyMatch (k : String) : Bool :=
  income_keywords.any (fun kw => hasSub k kw)

/-- The longest individual-expense keyword contained in the lowered key, the
first of that length in list order, as computed by the matched-keyword scan of
the aggregation loop. -/
def matchedExpenseKw (k : String) : Option String :=
  individual_expense_keywords.foldl
    (fun acc kw =>
      if hasSub k kw &&
          decide ((match acc with | some m => m.length | none => 0) < kw.length)
      then some kw else acc)
    none

/-- Income update of the aggregation loop for one field whose key passed the
total-expense guard: keys containing "total" always overwrite, other matches
only fill a still-zero income. -/
def incUpd (i : ℚ) (kv : String × String) : ℚ :=
  let k := keyLower kv.1
  if incomeKeyMatch k then
    match extract_numeric_value (valTrim kv.2) with
    | some p =>
      if 0 < p then
        if hasSub k "total" then p
        else if hasSub k "rental" then (if i = 0 then p else i)
        else if i = 0 then p else i
      else i
    | none => i
  else i

/-- Expense update of the aggregation loop for one field whose key passed the
total-expense guard: the state is the list of already summed
(absolute value, matched keyword) pairs plus the running expense sum. -/
def expUpd (se : List (ℚ × String) × ℚ) (kv : String × String) :
    List (ℚ × String) × ℚ :=
  match matchedExpenseKw (keyLower kv.1) with
  | some kw =>
    match extract_numeric_value (valTrim kv.2) with
    | some p =>
      let a := |p|
      if se.1.any (fun pr =>
          decide (pr.1 = a) && (hasSub pr.2 kw || hasSub kw pr.2))
      then se
      else (se.1 ++ [(a, kw)], se.2 + a)
    | none => se
  | none => se

/-- State of the per-document aggregation loop: chosen income, summed
(value, keyword) pairs, and running expense sum. -/
structure DocState where
  income : ℚ
  seen : List (ℚ × String)
  expenses : ℚ

/-- Body of the per-field loop in
aggregate_property_totals_from_all_documents: skip keys containing "total"
plus "expense(s)", otherwise run the income update and the expense update,
which touch disjoint parts of the state. -/
def fieldStep (st : DocState) (kv : String × String) : DocState :=
  if isTotalExpenseKey (keyLower kv.1) then st
  else
    let se := expUpd (st.seen, st.expenses) kv
    { income := incUpd st.income kv, seen := se.1, expenses := se.2 }

/-- Income component of the loop body, on the income value alone. -/
def stepI (i : ℚ) (kv : String × String) : ℚ :=
  if isTotalExpenseKey (keyLower kv.1) then i else incUpd i kv

/-- Expense component of the loop body, on the seen-pairs and sum alone. -/
def stepE (se : List (ℚ × String) × ℚ) (kv : String × String) :
    List (ℚ × String) × ℚ :=
  if isTotalExpenseKey (keyLower kv.1) then se else expUpd se kv

/-- First field whose key contains "total" plus "expense(s)" and whose value
parses, as scanned by the fallback loop after the main loop. -/
def firstTotalExpense (fields : FieldList) : Option ℚ :=
  fields.findSome? (fun kv =>
    if isTotalExpenseKey (keyLower kv.1) then
      extract_numeric_value (valTrim kv.2)
    else none)

/-- Per-document result (doc_income, doc_expenses): run the field loop from
the zero state, then, if the expense sum is still zero, fall back to the
absolute value of the first parsed total-expense field. -/
def docTotals (fields : FieldList) : ℚ × ℚ :=
  let st := fields.foldl fieldStep ⟨0, [], 0⟩
  let e :=
    if st.expenses = 0 then
      match firstTotalExpense fields with
      | some p => |p|
      | none => 0
    else st.expenses
  (st.income, e)

/-- Contribution of one stored document to the property totals: documents
with no extracted fields are skipped (contributing nothing), all others
contribute docTotals. -/
def docContribution (fields : FieldList) : ℚ × ℚ :=
  if fields.isEmpty then (0, 0) else docTotals fields

/-- One iteration of the document loop: skip documents without extracted
fields, otherwise add the document totals to the property accumulators. -/
def aggStep (acc : ℚ × ℚ) (fields : FieldList) : ℚ × ℚ :=
  if fields.isEmpty then acc
  else (acc.1 + (docTotals fields).1, acc.2 + (docTotals fields).2)

/-- Loop over all documents of a property accumulating both totals. -/
def aggregateDocs (docs : List FieldList) : ℚ × ℚ :=
  docs.foldl aggStep (0, 0)

/-- A stored property: its embedded document list (each reduced to its
extracted fields) and the two derived monetary fields. -/
structure PropertyRec where
  documents : List FieldList
  rental_income : ℚ
  expenses : ℚ

/-- aggregate_property_totals_from_all_documents: the document-store read is
modelled as an Except value; a raised error or a missing property yields
(0, 0), as does an empty document list, and otherwise the document loop
runs. -/
def aggregate_property_totals_from_all_documents
    (lookup : Except String (Option PropertyRec)) : ℚ × ℚ :=
  match lookup with
  | Except.error _ => (0, 0)
  | Except.ok none => (0, 0)
  | Except.ok (some prop) =>
    if prop.documents.isEmpty then (0, 0) else aggregateDocs prop.documents

/-- The property update performed by update_property_from_extracted_data and
by recalculate_property_totals_from_documents: store each aggregated total
when positive and 0 otherwise. -/
def applyAggregatedTotals (p : PropertyRec) : PropertyRec :=
  let t := aggregate_property_totals_from_all_documents (Except.ok (some p))
  { p with
    rental_income := if 0 < t.1 then t.1 else 0,
    expenses := if 0 < t.2 then t.2 else 0 }

/-- The income-candidate view of one field in the selection loop: its lowered
key and positive parsed value when the key passes the total-expense guard,
matches the income vocabulary, and the trimmed value parses to a positive
number; nothing otherwise. -/
def candVal (kv : String × String) : Option (String × ℚ) :=
  let k := keyLower kv.1
  if isTotalExpenseKey k then none
  else if incomeKeyMatch k then
    match extract_numeric_value (valTrim kv.2) with
    | some p => if 0 < p then some (k, p) else none
    | none => none
  else none

/-- All income candidates of a document in field order. -/
def incomeCandidates (fields : FieldList) : List (String × ℚ) :=
  fields.filterMap candVal

/-- The selection policy the aggregation loop actually implements: the value
of the last candidate whose key contains "total" when one exists, otherwise
the value of the first candidate, otherwise 0. -/
def incomeSelectAmended (fields : FieldList) : ℚ :=
  match ((incomeCandidates fields).filter
      (fun c => hasSub c.1 "total")).getLast? with
  | some c => c.2
  | none =>
    match (incomeCandidates fields).head? with
    | some c => c.2
    | none => 0

/-- Modelled from the claim wording of the specification, for comparison with
the code: a field whose key contains "total" or "rental" overrides a
previously chosen value, and otherwise the first positive match in field
order is kept. -/
def incomeSelectClaimed (fields : FieldList) : ℚ :=
  fields.foldl
    (fun i kv =>
      match candVal kv with
      | some kp =>
        if hasSub kp.1 "total" || hasSub kp.1 "rental" then kp.2
        else if i = 0 then kp.2 else i
      | none => i)
    0

/-- One regex pattern of parse_fields_from_raw_text: literal words (each with
an optional trailing letter s) separated by one-or-more whitespace, then any
run of colons and whitespace, an optional minus when the pattern allows one,
an optional dollar sign, and a captured group of digits and commas with an
optional dot-digits tail; plus the canonical output field name. -/
structure FieldPat where
  words : List (String × Bool)
  allowNeg : Bool
  name : String

/-- The ordered pattern table of parse_fields_from_raw_text. -/
def field_patterns : List FieldPat :=
  [⟨[("rental", false), ("income", false)], false, "Rental Income"⟩,
   ⟨[("total", false), ("income", false)], false, "Total Income"⟩,
   ⟨[("income", false)], false, "Income"⟩,
   ⟨[("total", false), ("expense", true)], true, "Total Expenses"⟩,
   ⟨[("expense", true)], true, "Expenses"⟩,
   ⟨[("net", false), ("cash", false), ("flow", false)], false, "Net Cash Flow"⟩,
   ⟨[("cash", false), ("flow", false)], false, "Cash Flow"⟩,
   ⟨[("maintenance", false)], true, "Maintenance"⟩,
   ⟨[("insurance", false)], true, "Insurance"⟩,
   ⟨[("property", false), ("tax", false)], true, "Property Tax"⟩,
   ⟨[("utilitie", true)], true, "Utilities"⟩,
   ⟨[("property", false), ("management", false)], true, "Property Management"⟩,
   ⟨[("management", false)], true, "Management"⟩,
   ⟨[("roof", false), ("repair", false)], true, "Roof Repair"⟩,
   ⟨[("plumbing", false), ("repair", false)], true, "Plumbing Repair"⟩,
   ⟨[("hvac", false), ("service", false)], true, "HVAC Service"⟩,
   ⟨[("repair", false)], true, "Repair"⟩,
   ⟨[("service", false)], true, "Service"⟩]

/-- Consume an exact literal character sequence. -/
def eatLit : List Char → List Char → Option (List Char)
  | [], l => some l
  | _ :: _, [] => none
  | p :: ps, c :: cs => if p == c then eatLit ps cs else none

/-- Consume an optional trailing letter s when the word allows one. -/
def eatOptS (o : Bool) (l : List Char) : List Char :=
  if o then (match l with | 's' :: r => r | r => r) else l

/-- Consume one-or-more whitespace characters greedily. -/
def eatSpaces1 : List Char → Option (List Char)
  | c :: cs => if isPySpace c then some (cs.dropWhile isPySpace) else none
  | [] => none

/-- Consume the literal words of a pattern separated by whitespace runs. -/
def eatWords : List (String × Bool) → List Char → Option (List Char)
  | [], l => some l
  | (w, o) :: rest, l =>
    match eatLit w.data l with
    | none => none
    | some l1 =>
      let l2 := eatOptS o l1
      match rest with
      | [] => some l2
      | _ :: _ =>
        match eatSpaces1 l2 with
        | none => none
        | some l3 => eatWords rest l3

/-- Try to match one pattern at the head of the text, returning the captured
numeric group and the rest of the text after the match. -/
def matchPatAt (p : FieldPat) (l : List Char) : Option (List Char × List Char) :=
  match eatWords p.words l with
  | none => none
  | some l1 =>
    let l2 := l1.dropWhile (fun c => c == ':' || isPySpace c)
    let l3 :=
      if p.allowNeg then (match l2 with | '-' :: r => r | r => r) else l2
    let l4 := match l3 with | '$' :: r => r | r => r
    let ds := l4.takeWhile (fun c => c.isDigit || c == ',')
    let r1 := l4.dropWhile (fun c => c.isDigit || c == ',')
    if ds.isEmpty then none
    else
      match r1 with
      | '.' :: r2 =>
        some (ds ++ '.' :: r2.takeWhile Char.isDigit, r2.dropWhile Char.isDigit)
      | _ => some (ds, r1)

/-- re.finditer for one pattern: scan left to right, collect every captured
group, and continue after each match; the fuel is the text length, enough
since every match consumes at least one character. -/
def scanPatFuel (p : FieldPat) : Nat → List Char → List (List Char)
  | 0, _ => []
  | _ + 1, [] => []
  | fuel + 1, c :: cs =>
    match matchPatAt p (c :: cs) with
    | some (g, rest) => g :: scanPatFuel p fuel rest
    | none => scanPatFuel p fuel cs

/-- All captured groups of one pattern over the lowercased text. -/
def scanPat (p : FieldPat) (l : List Char) : List (List Char) :=
  scanPatFuel p l.length l

/-- Python dict write fields at k to v on an insertion-ordered association
list: overwrite in place when the key exists, append otherwise. -/
def updateField (fs : FieldList) (k v : String) : FieldList :=
  if fs.any (fun kv => kv.1 == k) then
    fs.map (fun kv => if kv.1 == k then (k, v) else kv)
  else fs ++ [(k, v)]

/-- Decimal digits of a natural number, most significant first. -/
def natDigitsAux : Nat → Nat → List Char
  | 0, _ => []
  | _ + 1, 0 => []
  | fuel + 1, n => natDigitsAux fuel (n / 10) ++ [Char.ofNat (48 + n % 10)]

/-- Decimal digit characters of a natural number. -/
def natDigits (n : Nat) : List Char :=
  if n = 0 then ['0'] else natDigitsAux (n + 1) n

/-- Split a list into chunks of three from the front. -/
def chunk3 : List Char → List (List Char)
  | [] => []
  | a :: b :: c :: rest => [a, b, c] :: chunk3 rest
  | l => [l]

/-- Insert thousands separators into a digit sequence, as the Python comma
format specifier does. -/
def groupCommas (ds : List Char) : List Char :=
  List.intercalate [','] (((chunk3 ds.reverse).map List.reverse).reverse)

/-- Round to an integer, ties to even, matching Python float formatting on
the exact decimal values arising here. -/
def roundHalfEven (q : ℚ) : ℤ :=
  let f := ⌊q⌋
  let r := q - f
  if r < 1 / 2 then f
  else if 1 / 2 < r then f + 1
  else if f % 2 = 0 then f else f + 1

/-- Two decimal digits with a leading zero when needed. -/
def pad2 (n : Nat) : List Char :=
  if n < 10 then '0' :: natDigits n else natDigits n

/-- Python format string dollar-comma-dot-2f applied to a nonnegative
value. -/
def fmtMoney (q : ℚ) : List Char :=
  let m := (roundHalfEven (q * 100)).natAbs
  '$' :: (groupCommas (natDigits (m / 100)) ++ '.' :: pad2 (m % 100))

/-- The value stored by the pattern loop: the absolute value is rendered when
the parsed number is negative, the number itself otherwise. -/
def formatCurrency (q : ℚ) : String :=
  if q < 0 then ⟨fmtMoney (-q)⟩ else ⟨fmtMoney q⟩

/-- Pattern phase of parse_fields_from_raw_text: for every pattern in table
order, write the formatted value of every captured group that parses. -/
def applyPat (fs : FieldList) (p : FieldPat) (textLower : List Char) : FieldList :=
  (scanPat p textLower).foldl
    (fun fs2 g =>
      match extract_numeric_value ⟨g⟩ with
      | some q => updateField fs2 p.name (formatCurrency q)
      | none => fs2)
    fs

/-- Tail of the currency shape: a nonempty run of digits and commas, then a
dot and two digits. -/
def curTail (l : List Char) : Bool :=
  let run := l.takeWhile (fun c => c.isDigit || c == ',')
  let rest := l.dropWhile (fun c => c.isDigit || c == ',')
  !run.isEmpty &&
    (match rest with
     | '.' :: a :: b :: _ => a.isDigit && b.isDigit
     | _ => false)

/-- Currency shape at one position: an optional dollar sign, then digits and
commas, a dot and two digits. -/
def currencyAt : List Char → Bool
  | '$' :: rest => curTail rest
  | l => curTail l

/-- re.search of the currency shape anywhere in a value string. -/
def searchCurrency : List Char → Bool
  | [] => false
  | c :: cs => currencyAt (c :: cs) || searchCurrency cs

/-- Anchored check that a line begins with an optional minus, an optional
dollar sign, digits and commas, a dot and two digits. -/
def currencyLineStart (s : String) : Bool :=
  match s.data with
  | '-' :: rest => currencyAt rest
  | l => currencyAt l

/-- Split a line at its first colon. -/
def splitFirstColon : List Char → List Char × List Char
  | [] => ([], [])
  | ':' :: rest => ([], rest)
  | c :: rest =>
    let ab := splitFirstColon rest
    (c :: ab.1, ab.2)

/-- Line phase of parse_fields_from_raw_text for one line together with the
following raw line: a colon line whose value part has the currency shape is
written as a pair, and a colon-free line is treated as a label when the next
line starts with the currency shape. -/
def lineStep (fs : FieldList) (line : String) (next : Option String) : FieldList :=
  let l : String := ⟨trimChars line.data⟩
  if l.data.isEmpty then fs
  else if hasSub l ":" then
    let ab := splitFirstColon l.data
    let label : String := ⟨trimChars ab.1⟩
    let value : String := ⟨trimChars ab.2⟩
    if searchCurrency value.data then updateField fs label value else fs
  else
    match next with
    | some nl =>
      let n : String := ⟨trimChars nl.data⟩
      if currencyLineStart n then updateField fs l n else fs
    | none => fs

/-- Fold of lineStep over the split lines, each line seeing its successor. -/
def lineFold (fs : FieldList) : List String → FieldList
  | [] => fs
  | [a] => lineStep fs a none
  | a :: b :: rest => lineFold (lineStep fs a (some b)) (b :: rest)

/-- parse_fields_from_raw_text from ocr_router.py: empty text yields no
fields; otherwise the pattern phase runs over the lowercased text and the
line phase then runs over the split lines. -/
def parse_fields_from_raw_text (raw_text : String) : FieldList :=
  if raw_text.data.isEmpty then []
  else
    let lines := raw_text.splitOn "\n"
    let textLower := raw_text.data.map lcChar
    let fs1 := field_patterns.foldl (fun fs p => applyPat fs p textLower) []
    lineFold fs1 lines

lemma fieldStep_income (st : DocState) (kv : String × String) :
    (fieldStep st kv).income = stepI st.income kv := by
  unfold fieldStep stepI
  split <;> rfl

lemma fieldStep_exp (st : DocState) (kv : String × String) :
    ((fieldStep st kv).seen, (fieldStep st kv).expenses) =
      stepE (st.seen, st.expenses) kv := by
  unfold fieldStep stepE
  split <;> rfl

lemma foldl_fieldStep_income (fs : FieldList) :
    ∀ st : DocState, (fs.foldl fieldStep st).income = fs.foldl stepI st.income := by
  induction fs with
  | nil => intro st; rfl
  | cons kv rest ih =>
    intro st
    rw [List.foldl_cons, List.foldl_cons, ih, fieldStep_income]

lemma foldl_fieldStep_exp (fs : FieldList) :
    ∀ st : DocState,
      ((fs.foldl fieldStep st).seen, (fs.foldl fieldStep st).expenses) =
        fs.foldl stepE (st.seen, st.expenses) := by
  induction fs with
  | nil => intro st; rfl
  | cons kv rest ih =>
    intro st
    rw [List.foldl_cons, List.foldl_cons, ih, fieldStep_exp]

lemma findNum_no_digit (l : List Char) (h : ∀ c ∈ l, c.isDigit = false) :
    findNum l = none := by
  induction l with
  | nil => rfl
  | cons c cs ih =>
    rw [findNum]
    rw [h c (List.mem_cons_self c cs)]
    exact ih (fun d hd => h d (List.mem_cons_of_mem c hd))

lemma mem_trimChars {c : Char} {l : List Char} (h : c ∈ trimChars l) : c ∈ l := by
  unfold trimChars at h
  rw [List.mem_reverse] at h
  have h2 := (List.dropWhile_sublist (l := (l.dropWhile isPySpace).reverse)
    (p := isPySpace)).subset h
  rw [List.mem_reverse] at h2
  exact (List.dropWhile_sublist (l := l) (p := isPySpace)).subset h2

lemma extract_no_digit (s : String) (h : ∀ c ∈ s.data, c.isDigit = false) :
    extract_numeric_value s = none := by
  unfold extract_numeric_value
  split
  case isTrue => rfl
  case isFalse he =>
    have hC : ∀ c ∈ trimChars (((s.data.filter (fun c => !(c == '$'))).filter
        (fun c => !(c == ','))).filter (fun c => !(c == ' '))), c.isDigit = false := by
      intro c hc
      have hm := mem_trimChars hc
      have hm2 := List.mem_of_mem_filter (List.mem_of_mem_filter
        (List.mem_of_mem_filter hm))
      exact h c hm2
    dsimp only
    split
    case h_1 rest heq =>
      have : findNum rest = none := by
        apply findNum_no_digit
        intro c hc
        apply hC
        rw [heq]
        exact List.mem_cons_of_mem _ hc
      rw [this]
      rfl
    case h_2 =>
      apply findNum_no_digit
      intro c hc
      exact hC c hc

lemma candVal_pos {kv : String × String} {kp : String × ℚ}
    (hcv : candVal kv = some kp) : 0 < kp.2 := by
  unfold candVal at hcv
  dsimp only at hcv
  split at hcv
  · simp at hcv
  · split at hcv
    · split at hcv
      case h_1 p hp =>
        split at hcv
        case isTrue hpos =>
          simp only [Option.some.injEq] at hcv
          rw [← hcv]
          exact hpos
        case isFalse => simp at hcv
      case h_2 => simp at hcv
    · simp at hcv

lemma incomeCandidates_pos (fields : FieldList) :
    ∀ c ∈ incomeCandidates fields, 0 < c.2 := by
  intro c hc
  obtain ⟨kv, _, hcv⟩ := List.mem_filterMap.1 hc
  exact candVal_pos hcv

lemma stepI_char (i : ℚ) (kv : String × String) :
    stepI i kv =
      (match candVal kv with
       | none => i
       | some kp => if hasSub kp.1 "total" then kp.2
                    else if i = 0 then kp.2 else i) := by
  by_cases hg : isTotalExpenseKey (keyLower kv.1) = true
  · simp [stepI, candVal, hg]
  · by_cases hm : incomeKeyMatch (keyLower kv.1) = true
    · cases hp : extract_numeric_value (valTrim kv.2) with
      | none => simp [stepI, incUpd, candVal, hg, hm, hp]
      | some p =>
        by_cases hpos : 0 < p
        · by_cases ht : hasSub (keyLower kv.1) "total" = true
          · simp [stepI, incUpd, candVal, hg, hm, hp, hpos, ht]
          · by_cases hr : hasSub (keyLower kv.1) "rental" = true
            · simp [stepI, incUpd, candVal, hg, hm, hp, hpos, ht, hr]
            · simp [stepI, incUpd, candVal, hg, hm, hp, hpos, ht, hr]
        · simp [stepI, incUpd, candVal, hg, hm, hp, hpos]
    · simp [stepI, incUpd, candVal, hg, hm]

lemma mem_of_getLastSome {α : Type} {l : List α} {a : α}
    (h : l.getLast? = some a) : a ∈ l := by
  obtain ⟨hne, heq⟩ := List.mem_getLast?_eq_getLast (Option.mem_def.2 h)
  rw [heq]
  exact List.getLast_mem hne

lemma income_fold_char (fields : FieldList) :
    fields.foldl stepI 0 = incomeSelectAmended fields := by
  induction fields using List.reverseRecOn with
  | nil => rfl
  | append_singleton fs kv ih =>
    rw [List.foldl_append, List.foldl_cons, List.foldl_nil, ih, stepI_char]
    cases hcv : candVal kv with
    | none =>
      have hsame : incomeCandidates (fs ++ [kv]) = incomeCandidates fs := by
        unfold incomeCandidates
        rw [List.filterMap_append]
        simp [hcv]
      simp only [incomeSelectAmended, hsame]
    | some kp =>
      obtain ⟨k, p⟩ := kp
      have hcands : incomeCandidates (fs ++ [kv]) =
          incomeCandidates fs ++ [(k, p)] := by
        unfold incomeCandidates
        rw [List.filterMap_append]
        simp [hcv]
      by_cases ht : hasSub k "total" = true
      · have hfil : (incomeCandidates (fs ++ [kv])).filter
            (fun c => hasSub c.1 "total") =
            (incomeCandidates fs).filter (fun c => hasSub c.1 "total") ++ [(k, p)] := by
          rw [hcands, List.filter_append]
          simp [ht]
        conv_rhs => rw [incomeSelectAmended]
        rw [hfil, List.getLast?_concat]
        simp [ht]
      · have hfil : (incomeCandidates (fs ++ [kv])).filter
            (fun c => hasSub c.1 "total") =
            (incomeCandidates fs).filter (fun c => hasSub c.1 "total") := by
          rw [hcands, List.filter_append]
          simp [ht]
        conv_rhs => rw [incomeSelectAmended]
        rw [hfil]
        cases hlast : ((incomeCandidates fs).filter
            (fun c => hasSub c.1 "total")).getLast? with
        | some c =>
          have hc : c ∈ incomeCandidates fs :=
            (List.mem_filter.1 (mem_of_getLastSome hlast)).1
          have hpos : 0 < c.2 := incomeCandidates_pos fs c hc
          have hself : incomeSelectAmended fs = c.2 := by
            unfold incomeSelectAmended
            rw [hlast]
          rw [hself]
          simp [ht, hpos.ne']
        | none =>
          cases hcand : incomeCandidates fs with
          | nil =>
            have h0 : incomeSelectAmended fs = 0 := by
              unfold incomeSelectAmended
              rw [hcand]
              simp
            rw [h0, hcands, hcand]
            simp [ht]
          | cons hd tl =>
            have hpos : 0 < hd.2 :=
              incomeCandidates_pos fs hd (by rw [hcand]; exact List.mem_cons_self hd tl)
            have hself : incomeSelectAmended fs = hd.2 := by
              unfold incomeSelectAmended
              rw [hlast, hcand]
              rfl
            rw [hself, hcands, hcand]
            simp [ht, hpos.ne']

lemma aggStep_fst (acc : ℚ × ℚ) (d : FieldList) :
    (aggStep acc d).1 = acc.1 + (docContribution d).1 := by
  unfold aggStep docContribution
  split
  · simp
  · rfl

lemma aggStep_snd (acc : ℚ × ℚ) (d : FieldList) :
    (aggStep acc d).2 = acc.2 + (docContribution d).2 := by
  unfold aggStep docContribution
  split
  · simp
  · rfl

lemma aggregateDocs_shift (ds : List FieldList) :
    ∀ acc : ℚ × ℚ, ds.foldl aggStep acc =
      (acc.1 + (aggregateDocs ds).1, acc.2 + (aggregateDocs ds).2) := by
  induction ds with
  | nil =>
    intro acc
    simp [aggregateDocs]
  | cons d ds ih =>
    intro acc
    rw [List.foldl_cons, ih (aggStep acc d)]
    conv_rhs =>
      rw [show aggregateDocs (d :: ds) = ds.foldl aggStep (aggStep (0, 0) d) from rfl]
    rw [ih (aggStep (0, 0) d)]
    simp only [Prod.mk.injEq]
    constructor
    · rw [aggStep_fst, aggStep_fst]
      ring
    · rw [aggStep_snd, aggStep_snd]
      ring

lemma aggregateDocs_cons (d : FieldList) (ds : List FieldList) :
    aggregateDocs (d :: ds) =
      ((docContribution d).1 + (aggregateDocs ds).1,
       (docContribution d).2 + (aggregateDocs ds).2) := by
  rw [show aggregateDocs (d :: ds) = ds.foldl aggStep (aggStep (0, 0) d) from rfl]
  rw [aggregateDocs_shift ds (aggStep (0, 0) d)]
  simp only [Prod.mk.injEq]
  constructor
  · rw [aggStep_fst]
    simp
  · rw [aggStep_snd]
    simp

lemma aggregateDocs_eq_sum (docs : List FieldList) :
    aggregateDocs docs =
      ((docs.map (fun d => (docContribution d).1)).sum,
       (docs.map (fun d => (docContribution d).2)).sum) := by
  induction docs with
  | nil => rfl
  | cons d ds ih =>
    rw [aggregateDocs_cons, ih]
    simp

lemma aggregateDocs_removal (l1 : List FieldList) (d : FieldList)
    (l2 : List FieldList) :
    aggregateDocs (l1 ++ l2) =
      ((aggregateDocs (l1 ++ d :: l2)).1 - (docContribution d).1,
       (aggregateDocs (l1 ++ d :: l2)).2 - (docContribution d).2) := by
  rw [aggregateDocs_eq_sum, aggregateDocs_eq_sum]
  simp only [List.map_append, List.sum_append, List.map_cons, List.sum_cons,
    Prod.mk.injEq]
  constructor <;> ring

lemma stepI_nonneg (i : ℚ) (kv : String × String) (h : 0 ≤ i) :
    0 ≤ stepI i kv := by
  rw [stepI_char]
  cases hcv : candVal kv with
  | none => exact h
  | some kp =>
    have hpos := candVal_pos hcv
    dsimp only
    split_ifs <;> first | exact hpos.le | exact h

lemma foldI_nonneg (fields : FieldList) :
    ∀ i : ℚ, 0 ≤ i → 0 ≤ fields.foldl stepI i := by
  induction fields with
  | nil => intro i h; simpa
  | cons kv fs ih =>
    intro i h
    rw [List.foldl_cons]
    exact ih _ (stepI_nonneg i kv h)

lemma stepE_exp_le (se : List (ℚ × String) × ℚ) (kv : String × String) :
    se.2 ≤ (stepE se kv).2 := by
  unfold stepE expUpd
  dsimp only
  split
  · exact le_refl _
  · split
    case h_1 kw hkw =>
      split
      case h_1 p hp =>
        split
        · exact le_refl _
        · exact le_add_of_nonneg_right (abs_nonneg p)
      case h_2 => exact le_refl _
    case h_2 => exact le_refl _

lemma foldE_exp_nonneg (fields : FieldList) :
    ∀ se : List (ℚ × String) × ℚ, 0 ≤ se.2 →
      0 ≤ (fields.foldl stepE se).2 := by
  induction fields with
  | nil => intro se h; simpa
  | cons kv fs ih =>
    intro se h
    rw [List.foldl_cons]
    exact ih _ (h.trans (stepE_exp_le se kv))

lemma docTotals_fst_nonneg (fields : FieldList) : 0 ≤ (docTotals fields).1 := by
  unfold docTotals
  dsimp only
  rw [foldl_fieldStep_income]
  exact foldI_nonneg fields 0 le_rfl

lemma docTotals_snd_nonneg (fields : FieldList) : 0 ≤ (docTotals fields).2 := by
  unfold docTotals
  dsimp only
  split
  · split
    case h_1 p hp => exact abs_nonneg p
    case h_2 => exact le_refl 0
  · have h2 := foldl_fieldStep_exp fields ⟨0, [], 0⟩
    have h4 := congrArg Prod.snd h2
    dsimp only at h4
    rw [h4]
    exact foldE_exp_nonneg fields ([], 0) le_rfl

lemma docContribution_nonneg (d : FieldList) :
    0 ≤ (docContribution d).1 ∧ 0 ≤ (docContribution d).2 := by
  unfold docContribution
  split
  · simp
  · exact ⟨docTotals_fst_nonneg d, docTotals_snd_nonneg d⟩

lemma aggregateDocs_nonneg (docs : List FieldList) :
    0 ≤ (aggregateDocs docs).1 ∧ 0 ≤ (aggregateDocs docs).2 := by
  rw [aggregateDocs_eq_sum]
  constructor
  · apply List.sum_nonneg
    intro x hx
    obtain ⟨d, _, rfl⟩ := List.mem_map.1 hx
    exact (docContribution_nonneg d).1
  · apply List.sum_nonneg
    intro x hx
    obtain ⟨d, _, rfl⟩ := List.mem_map.1 hx
    exact (docContribution_nonneg d).2

lemma aggregateProperty_nonneg (p : PropertyRec) :
    0 ≤ (aggregate_property_totals_from_all_documents (Except.ok (some p))).1 ∧
    0 ≤ (aggregate_property_totals_from_all_documents (Except.ok (some p))).2 := by
  unfold aggregate_property_totals_from_all_documents
  dsimp only
  split
  · simp
  · exact aggregateDocs_nonneg p.documents

lemma stepE_no_match (se : List (ℚ × String) × ℚ) (kv : String × String)
    (h : matchedExpenseKw (keyLower kv.1) = none) : stepE se kv = se := by
  unfold stepE expUpd
  rw [h]
  split <;> rfl

lemma foldE_no_match (fields : FieldList)
    (h : ∀ kv ∈ fields, matchedExpenseKw (keyLower kv.1) = none) :
    ∀ se, fields.foldl stepE se = se := by
  induction fields with
  | nil => intro se; rfl
  | cons kv fs ih =>
    intro se
    rw [List.foldl_cons, stepE_no_match se kv (h kv (List.mem_cons_self kv fs))]
    exact ih (fun d hd => h d (List.mem_cons_of_mem kv hd)) se

/-- C7: the numeric value extractor returns no value on any string without a
digit, and parses the well-formed currency strings dollar 1,234.56 and minus
dollar 1,234.56 to 1234.56 and -1234.56 respectively. -/
theorem C7_numeric_extractor :
    (∀ s : String, (∀ c ∈ s.data, c.isDigit = false) →
      extract_numeric_value s = none)
    ∧ extract_numeric_value "$1,234.56" = some (1234.56 : ℚ)
    ∧ extract_numeric_value "-$1,234.56" = some (-1234.56 : ℚ) := by
  refine ⟨extract_no_digit, ?_, ?_⟩ <;> with_unfolding_all rfl

/-- Witness for C7 at the digit-free string abc. -/
theorem C7_numeric_extractor_witness : extract_numeric_value "abc" = none :=
  C7_numeric_extractor.1 "abc" (by decide)

/-- C8: the numeric value extractor is total - on every input, string or
not, including empty and malformed strings, it returns either a parsed
rational or no value, and the guard and malformed cases return no value. -/
theorem C8_extractor_total :
    (∀ v : OcrValue, (∃ q : ℚ, extract_numeric_value_total v = some q)
      ∨ extract_numeric_value_total v = none)
    ∧ extract_numeric_value_total (OcrValue.strv "") = none
    ∧ extract_numeric_value_total OcrValue.nonStr = none
    ∧ extract_numeric_value_total (OcrValue.strv "$ ,.") = none
    ∧ extract_numeric_value_total (OcrValue.strv "-") = none := by
  refine ⟨?_, by decide, rfl, by decide, by decide⟩
  intro v
  cases hv : extract_numeric_value_total v with
  | none => exact Or.inr rfl
  | some q => exact Or.inl ⟨q, rfl⟩

/-- C9: a failed document-store read or a missing property is absorbed inside
the aggregator, which returns (0, 0) instead of propagating the error. -/
theorem C9_error_boundary :
    (∀ e : String,
      aggregate_property_totals_from_all_documents (Except.error e) = (0, 0))
    ∧ aggregate_property_totals_from_all_documents (Except.ok none) = (0, 0) :=
  ⟨fun _ => rfl, rfl⟩

/-- C1 (amended): exactly one income value is selected per document, with no
summation across income-labeled fields; among fields whose key matches the
income vocabulary and parses to a positive number (total-plus-expense keys
excluded), a key containing "total" always overrides the current choice, so
the last such match wins, while a key containing "rental" does not override a
previously chosen value - like a generic match it is kept only when no value
has been chosen yet; hence the selected income is the last positive "total"
match when one exists and the first positive match otherwise. -/
theorem C1_income_selection (fields : FieldList) :
    (docTotals fields).1 = incomeSelectAmended fields := by
  unfold docTotals
  dsimp only
  rw [foldl_fieldStep_income]
  exact income_fold_char fields

/-- C1 as stated is false: on a document listing a generic "Income" field of
500 before a "Rental Income" field of 800, the aggregator keeps 500, while
the claimed policy, under which a "rental" key overrides a previously chosen
generic income value, yields 800. -/
theorem C1_counterexample :
    (docTotals [("Income", "$500.00"), ("Rental Income", "$800.00")]).1 = 500
    ∧ incomeSelectClaimed [("Income", "$500.00"), ("Rental Income", "$800.00")] = 800
    ∧ (500 : ℚ) ≠ 800 := by
  refine ⟨?_, ?_, ?_⟩
  · with_unfolding_all rfl
  · with_unfolding_all rfl
  · norm_num

/-- C2: within one document a field matching the individual-expense
vocabulary is skipped by the expense scan exactly when its absolute parsed
value equals the absolute value of a match already summed in this document
and one of the two matched keywords contains the other; consequently the
Property Management plus Management document sums to 100 and the Maintenance
plus Insurance document sums to 200. -/
theorem C2_expense_dedup :
    (∀ (se : List (ℚ × String) × ℚ) (kv : String × String) (kw : String) (p : ℚ),
      matchedExpenseKw (keyLower kv.1) = some kw →
      extract_numeric_value (valTrim kv.2) = some p →
      (expUpd se kv = se ↔
        ∃ pr ∈ se.1, pr.1 = |p| ∧
          (hasSub pr.2 kw = true ∨ hasSub kw pr.2 = true)))
    ∧ (docTotals [("Property Management", "$100.00"), ("Management", "$100.00")]).2 = 100
    ∧ (docTotals [("Maintenance", "$100.00"), ("Insurance", "$100.00")]).2 = 200 := by
  refine ⟨?_, by with_unfolding_all rfl, by with_unfolding_all rfl⟩
  intro se kv kw p hkw hp
  unfold expUpd
  rw [hkw, hp]
  dsimp only
  by_cases hdup : (se.1.any (fun pr =>
      decide (pr.1 = |p|) && (hasSub pr.2 kw || hasSub kw pr.2))) = true
  · rw [if_pos hdup]
    constructor
    · intro _
      rw [List.any_eq_true] at hdup
      obtain ⟨pr, hpr, hcond⟩ := hdup
      rw [Bool.and_eq_true, decide_eq_true_eq, Bool.or_eq_true] at hcond
      exact ⟨pr, hpr, hcond.1, hcond.2⟩
    · intro _
      rfl
  · rw [if_neg hdup]
    constructor
    · intro heq
      exfalso
      have hlen := congrArg (fun x => x.1.length) heq
      simp at hlen
    · intro hex
      exfalso
      apply hdup
      rw [List.any_eq_true]
      obtain ⟨pr, hpr, h1, h2⟩ := hex
      refine ⟨pr, hpr, ?_⟩
      rw [Bool.and_eq_true, decide_eq_true_eq, Bool.or_eq_true]
      exact ⟨h1, h2⟩

/-- Witness for C2: with 100 already summed for the keyword
"property management", the field Management for 100 dollars is skipped. -/
theorem C2_expense_dedup_witness :
    expUpd ([((100 : ℚ), "property management")], 100) ("Management", "$100.00") =
      ([((100 : ℚ), "property management")], 100) := by
  have h := C2_expense_dedup.1 ([((100 : ℚ), "property management")], 100)
    ("Management", "$100.00") "management" 100 (by decide)
    (by with_unfolding_all rfl)
  rw [h]
  refine ⟨((100 : ℚ), "property management"), List.mem_cons_self _ _, ?_, ?_⟩
  · with_unfolding_all rfl
  · left
    decide

/-- C3 as stated is false: on the raw text Rental Income, 1,500.00,
Maintenance, 200.00 on four lines, the parser also emits the key Income,
which the claimed two-key mapping does not contain. -/
theorem C3_counterexample :
    List.lookup "Income"
      (parse_fields_from_raw_text "Rental Income\n$1,500.00\nMaintenance\n$200.00")
      = some "$1,500.00"
    ∧ List.lookup "Income"
      [("Rental Income", "$1,500.00"), ("Maintenance", "$200.00")] = none
    ∧ "Income" ≠ "Rental Income" ∧ "Income" ≠ "Maintenance" := by
  refine ⟨?_, ?_, ?_, ?_⟩
  · with_unfolding_all rfl
  · with_unfolding_all rfl
  · decide
  · decide

/-- C3 (amended): the raw text Rental Income, 1,500.00, Maintenance, 200.00
on four lines normalizes to exactly the three-entry mapping Rental Income to
1,500.00, Income to 1,500.00 (written by the generic income regex matching
inside "rental income"), and Maintenance to 200.00. -/
theorem C3_text_fallback :
    parse_fields_from_raw_text "Rental Income\n$1,500.00\nMaintenance\n$200.00" =
      [("Rental Income", "$1,500.00"), ("Income", "$1,500.00"),
       ("Maintenance", "$200.00")] := by
  with_unfolding_all rfl

/-- C4: the aggregator totals are the componentwise sum of the per-document
contributions (each defaulting to zero when nothing matched), so removing one
document yields the previous totals minus exactly that document's
contribution; in the two-document example with contributions (1000, 200) and
(0, 300) the totals are (1000, 500), and dropping the second document leaves
(1000, 200). -/
theorem C4_additivity :
    (∀ docs : List FieldList, aggregateDocs docs =
      ((docs.map (fun d => (docContribution d).1)).sum,
       (docs.map (fun d => (docContribution d).2)).sum))
    ∧ (∀ (l1 : List FieldList) (d : FieldList) (l2 : List FieldList),
        aggregateDocs (l1 ++ l2) =
          ((aggregateDocs (l1 ++ d :: l2)).1 - (docContribution d).1,
           (aggregateDocs (l1 ++ d :: l2)).2 - (docContribution d).2))
    ∧ aggregateDocs [[("Rental Income", "$1,000.00"), ("Maintenance", "$200.00")],
        [("Insurance", "$300.00")]] = (1000, 500)
    ∧ aggregateDocs [[("Rental Income", "$1,000.00"), ("Maintenance", "$200.00")]] =
        (1000, 200)
    ∧ docContribution [("Insurance", "$300.00")] = (0, 300) :=
  ⟨aggregateDocs_eq_sum, aggregateDocs_removal,
   by with_unfolding_all rfl, by with_unfolding_all rfl,
   by with_unfolding_all rfl⟩

/-- C5: after an aggregation-triggering update the stored rental_income and
expenses equal the aggregator output for the current document set, both
totals are nonnegative, and they are stored as 0 when no document contributes
a positive value. -/
theorem C5_totals_invariant (p : PropertyRec) :
    (applyAggregatedTotals p).rental_income =
      (aggregate_property_totals_from_all_documents (Except.ok (some p))).1
    ∧ (applyAggregatedTotals p).expenses =
      (aggregate_property_totals_from_all_documents (Except.ok (some p))).2
    ∧ 0 ≤ (aggregate_property_totals_from_all_documents (Except.ok (some p))).1
    ∧ 0 ≤ (aggregate_property_totals_from_all_documents (Except.ok (some p))).2
    ∧ ((∀ d ∈ p.documents, docContribution d = (0, 0)) →
        (applyAggregatedTotals p).rental_income = 0 ∧
        (applyAggregatedTotals p).expenses = 0) := by
  have hn := aggregateProperty_nonneg p
  refine ⟨?_, ?_, hn.1, hn.2, ?_⟩
  · unfold applyAggregatedTotals
    dsimp only
    rcases lt_or_eq_of_le hn.1 with h | h
    · rw [if_pos h]
    · rw [if_neg (by rw [← h]; exact lt_irrefl 0)]
      exact h
  · unfold applyAggregatedTotals
    dsimp only
    rcases lt_or_eq_of_le hn.2 with h | h
    · rw [if_pos h]
    · rw [if_neg (by rw [← h]; exact lt_irrefl 0)]
      exact h
  · intro hall
    have ht0 : aggregate_property_totals_from_all_documents
        (Except.ok (some p)) = (0, 0) := by
      unfold aggregate_property_totals_from_all_documents
      dsimp only
      split
      · rfl
      · rw [aggregateDocs_eq_sum]
        simp only [Prod.mk.injEq]
        constructor
        · apply List.sum_eq_zero
          intro x hx
          obtain ⟨d, hd, rfl⟩ := List.mem_map.1 hx
          rw [hall d hd]
        · apply List.sum_eq_zero
          intro x hx
          obtain ⟨d, hd, rfl⟩ := List.mem_map.1 hx
          rw [hall d hd]
    unfold applyAggregatedTotals
    dsimp only
    rw [ht0]
    simp

/-- Witness for C5 at a property with no documents and stale stored
totals. -/
theorem C5_totals_invariant_witness :
    (applyAggregatedTotals ⟨[], 5, 7⟩).rental_income = 0 ∧
    (applyAggregatedTotals ⟨[], 5, 7⟩).expenses = 0 :=
  (C5_totals_invariant ⟨[], 5, 7⟩).2.2.2.2 (by simp)

/-- C6: in a document where no field matches the individual-expense
vocabulary, if some field with a total-plus-expense key parses, the
document's expense contribution is the absolute parsed value of the first
such field. -/
theorem C6_total_expense_fallback (fields : FieldList) (p : ℚ)
    (hnone : ∀ kv ∈ fields, matchedExpenseKw (keyLower kv.1) = none)
    (hfind : firstTotalExpense fields = some p) :
    (docTotals fields).2 = |p| := by
  unfold docTotals
  dsimp only
  have h2 := foldl_fieldStep_exp fields ⟨0, [], 0⟩
  dsimp only at h2
  rw [foldE_no_match fields hnone ([], 0)] at h2
  have h4 := congrArg Prod.snd h2
  dsimp only at h4
  rw [h4, if_pos rfl, hfind]

/-- Witness for C6: a document holding only a Total Expenses field of 500
dollars contributes expenses 500. -/
theorem C6_total_expense_fallback_witness :
    (docTotals [("Total Expenses", "$500.00")]).2 = |(500 : ℚ)| :=
  C6_total_expense_fallback [("Total Expenses", "$500.00")] 500 (by decide)
    (by with_unfolding_all rfl)

/-- C10 as stated is false: the field Rent Service, whose key matches both
vocabularies (income keyword rent, expense keyword service) and whose value
100 dollars parses to a positive number, is not always counted toward both
sides.  In the document Service=100, Rent Service=100 the expense scan
dedup-skips it, leaving expenses at 100 rather than 200, and in the document
Income=200, Rent Service=100 the income scan keeps the earlier 200 rather
than counting it. -/
theorem C10_counterexample :
    incomeKeyMatch (keyLower "Rent Service") = true
    ∧ matchedExpenseKw (keyLower "Rent Service") = some "service"
    ∧ isTotalExpenseKey (keyLower "Rent Service") = false
    ∧ extract_numeric_value (valTrim "$100.00") = some 100
    ∧ (0 : ℚ) < 100
    ∧ docTotals [("Service", "$100.00"), ("Rent Service", "$100.00")] = (100, 100)
    ∧ (100 : ℚ) ≠ 100 + 100
    ∧ docTotals [("Income", "$200.00"), ("Rent Service", "$100.00")] = (200, 100)
    ∧ (200 : ℚ) ≠ 100 := by
  refine ⟨by decide, by decide, by decide, by with_unfolding_all rfl,
    by norm_num, ?_, by norm_num, ?_, by norm_num⟩
  · with_unfolding_all rfl
  · with_unfolding_all rfl

/-- C10 (amended): a field whose key matches both the income vocabulary and
the individual-expense vocabulary, with a positive parsed value and no
total-plus-expense exclusion, is processed by both scans of the aggregation
loop - the income scan and the expense scan are not mutually exclusive - but
each scan applies its own policy to it: the income scan takes its value
exactly when the key contains "total" or no income has been chosen yet, and
the expense scan adds its absolute value exactly when no substring-related
keyword with the same absolute value was already summed; in particular a
document whose only field is such a both-matching field counts that single
value both as its income and as its expenses. -/
theorem C10_income_and_expense (st : DocState) (k v kw : String) (p : ℚ)
    (hinc : incomeKeyMatch (keyLower k) = true)
    (hexp : matchedExpenseKw (keyLower k) = some kw)
    (hguard : isTotalExpenseKey (keyLower k) = false)
    (hp : extract_numeric_value (valTrim v) = some p)
    (hpos : 0 < p) :
    (fieldStep st (k, v)).income =
      (if hasSub (keyLower k) "total" = true then p
       else if st.income = 0 then p else st.income)
    ∧ (fieldStep st (k, v)).expenses =
      (if st.seen.any (fun pr =>
          decide (pr.1 = |p|) && (hasSub pr.2 kw || hasSub kw pr.2))
       then st.expenses else st.expenses + |p|)
    ∧ docTotals [(k, v)] = (p, |p|) := by
  refine ⟨?_, ?_, ?_⟩
  · rw [fieldStep_income]
    unfold stepI incUpd
    dsimp only
    simp only [hguard, Bool.false_eq_true, if_false, hinc, hp, hpos, if_true]
    split_ifs <;> rfl
  · have h2 := congrArg Prod.snd (fieldStep_exp st (k, v))
    dsimp only at h2
    rw [h2]
    unfold stepE expUpd
    dsimp only
    simp only [hguard, Bool.false_eq_true, if_false, hexp, hp]
    split_ifs <;> rfl
  · have hstep : fieldStep ⟨0, [], 0⟩ (k, v) = ⟨p, [(|p|, kw)], |p|⟩ := by
      unfold fieldStep expUpd incUpd
      dsimp only
      rw [hguard]
      simp only [Bool.false_eq_true, if_false, hinc, hexp, hp, if_true]
      split_ifs <;> simp_all
    unfold docTotals
    dsimp only
    rw [List.foldl_cons, List.foldl_nil, hstep]
    dsimp only
    rw [if_neg (abs_ne_zero.2 hpos.ne')]

/-- Witness for C10: the field Rent Service for 100 dollars, alone in its
document, counts 100 toward income and 100 toward expenses. -/
theorem C10_income_and_expense_witness :
    docTotals [("Rent Service", "$100.00")] = (100, |(100 : ℚ)|) :=
  (C10_income_and_expense ⟨0, [], 0⟩ "Rent Service" "$100.00" "service" 100
    (by decide) (by decide) (by decide) (by with_unfolding_all rfl)
    (by norm_num)).2.2
